import Mathlib

/-!
Verification of the bicycle-parking data pipeline core
(`Data Pipeline/downstream.py` and `Data Pipeline/data_pipeline.py`).

Shallow embedding conventions:
* a pandas/geopandas row is a Lean structure; a missing cell (`NaN`) is `none`;
* point geometries are pairs of rationals; `to_crs` (EPSG:4326 ↔ 32617) is a
  planar re-projection pair that is an exact inverse on the region of interest
  (spec 4.1), so it is modelled as the identity and distances are taken
  directly on the stored coordinates in metres;
* `sklearn.cluster.DBSCAN(eps, min_samples).fit` is modelled by an executable
  connected-component labelling (for `min_samples ≤ 2`, the only values used by
  the source, DBSCAN clusters are exactly the connected components of the
  "distance ≤ eps" graph that reach `min_samples` members; labels differ from
  sklearn's only by the arbitrary renaming the spec allows, 4.2).  `fit` on an
  empty coordinate array raises `ValueError` ("Found array with 0 sample(s)"),
  modelled with `Except`.
-/

/- Rational arithmetic must evaluate inside the kernel so that concrete runs
of the embedded pipeline reduce by `rfl`/`decide`. -/
attribute [local semireducible] Rat.add Rat.sub Rat.mul Rat.inv

/-- Squared Euclidean distance between two planar points (metres²).
Comparing `dist2 p q ≤ eps²` is exactly `dist p q ≤ eps` for `eps ≥ 0`. -/
def dist2 (p q : ℚ × ℚ) : ℚ :=
  (p.1 - q.1) * (p.1 - q.1) + (p.2 - q.2) * (p.2 - q.2)

theorem dist2_comm (p q : ℚ × ℚ) : dist2 p q = dist2 q p := by
  unfold dist2; ring

theorem dist2_self (p : ℚ × ℚ) : dist2 p p = 0 := by
  unfold dist2; ring

/-- Insert into a sorted-without-duplicates list, keeping it sorted and
duplicate-free. -/
def insortU [LinearOrder α] (a : α) : List α → List α
  | [] => [a]
  | b :: bs => if a < b then a :: b :: bs else if a = b then b :: bs else b :: insortU a bs

/-- The sorted list of distinct values of `l` (the model of `np.unique` /
sorted `groupby` keys). -/
def sortedDedup [LinearOrder α] (l : List α) : List α := l.foldr insortU []

theorem mem_insortU [LinearOrder α] {a x : α} {l : List α} :
    x ∈ insortU a l ↔ x = a ∨ x ∈ l := by
  induction l with
  | nil => simp [insortU]
  | cons b bs ih =>
    by_cases h1 : a < b
    · simp only [insortU, if_pos h1, List.mem_cons]
    · by_cases h2 : a = b
      · subst h2
        rw [insortU, if_neg h1, if_pos rfl]
        simp only [List.mem_cons]
        tauto
      · simp only [insortU, if_neg h1, if_neg h2, List.mem_cons, ih]
        tauto

theorem mem_sortedDedup [LinearOrder α] {x : α} {l : List α} :
    x ∈ sortedDedup l ↔ x ∈ l := by
  induction l with
  | nil => simp [sortedDedup]
  | cons b bs ih =>
    simp only [sortedDedup, List.foldr] at *
    rw [mem_insortU, ih, List.mem_cons]

theorem sorted_insortU [LinearOrder α] {a : α} {l : List α}
    (h : l.Sorted (· < ·)) : (insortU a l).Sorted (· < ·) := by
  induction l with
  | nil => simp [insortU]
  | cons b bs ih =>
    rcases List.sorted_cons.mp h with ⟨hb, hbs⟩
    by_cases h1 : a < b
    · rw [insortU, if_pos h1]
      refine List.sorted_cons.mpr ⟨?_, h⟩
      intro x hx
      rcases List.mem_cons.mp hx with rfl | hx
      · exact h1
      · exact lt_trans h1 (hb x hx)
    · by_cases h2 : a = b
      · rw [insortU, if_neg h1, if_pos h2]
        exact h
      · have hba : b < a := lt_of_le_of_ne (not_lt.mp h1) (Ne.symm h2)
        rw [insortU, if_neg h1, if_neg h2]
        refine List.sorted_cons.mpr ⟨?_, ih hbs⟩
        intro x hx
        rcases mem_insortU.mp hx with rfl | hx
        · exact hba
        · exact hb x hx

theorem sorted_sortedDedup [LinearOrder α] (l : List α) :
    (sortedDedup l).Sorted (· < ·) := by
  induction l with
  | nil => simp [sortedDedup]
  | cons b bs ih => exact sorted_insortU ih

theorem nodup_sortedDedup [LinearOrder α] (l : List α) : (sortedDedup l).Nodup :=
  (sorted_sortedDedup l).imp ne_of_lt

theorem sortedDedup_all_eq [LinearOrder α] {l : List α} {v : α}
    (hne : l ≠ []) (hall : ∀ x ∈ l, x = v) : sortedDedup l = [v] := by
  induction l with
  | nil => exact absurd rfl hne
  | cons b bs ih =>
    have hb : b = v := hall b (List.mem_cons_self b bs)
    cases bs with
    | nil => simp [sortedDedup, insortU, hb]
    | cons c cs =>
      have : sortedDedup (c :: cs) = [v] :=
        ih (by simp) (fun x hx => hall x (List.mem_cons_of_mem _ hx))
      simp only [sortedDedup, List.foldr] at this ⊢
      rw [this, hb, insortU]
      simp

theorem sum_map_add_nat (f g : α → Nat) (l : List α) :
    (l.map (fun x => f x + g x)).sum = (l.map f).sum + (l.map g).sum := by
  induction l with
  | nil => rfl
  | cons b bs ih => simp [ih]; omega

theorem sum_map_ite_eq_one [DecidableEq α] {l : List α} {a : α}
    (hnd : l.Nodup) (hmem : a ∈ l) :
    (l.map (fun v => if a = v then (1 : Nat) else 0)).sum = 1 := by
  induction l with
  | nil => cases hmem
  | cons b bs ih =>
    by_cases hab : a = b
    · subst hab
      have hnotin : a ∉ bs := (List.nodup_cons.mp hnd).1
      have hz : (bs.map (fun v => if a = v then (1 : Nat) else 0)).sum = 0 := by
        rw [List.sum_eq_zero]
        intro x hx
        rcases List.mem_map.mp hx with ⟨v, hv, rfl⟩
        simp only [ite_eq_right_iff]
        intro h; exact absurd (h ▸ hv) hnotin
      simp [hz]
    · have hmem2 : a ∈ bs := by
        rcases List.mem_cons.mp hmem with h | h
        · exact absurd h hab
        · exact h
      simp [hab, ih (List.nodup_cons.mp hnd).2 hmem2]

/-- Grouping a list by any label assignment is a partition: summing, over the
distinct labels, the number of elements with that label gives the length. -/
theorem sum_counts_eq_length [DecidableEq α] :
    ∀ (M D : List α), D.Nodup → (∀ v ∈ M, v ∈ D) →
      (D.map (fun v => M.count v)).sum = M.length := by
  intro M
  induction M with
  | nil =>
    intro D _ _
    rw [List.sum_eq_zero]
    · rfl
    · intro x hx
      rcases List.mem_map.mp hx with ⟨v, _, rfl⟩
      simp
  | cons a M ih =>
    intro D hnd hsub
    have hcnt : ∀ v : α, (a :: M).count v = M.count v + (if a = v then 1 else 0) := by
      intro v
      rw [List.count_cons]
      by_cases h : a = v
      · simp [h]
      · have h2 : ¬ v = a := fun hv => h hv.symm
        simp [h, h2]
    have hmap : D.map (fun v => (a :: M).count v)
        = D.map (fun v => M.count v + (if a = v then 1 else 0)) :=
      List.map_congr_left (fun v _ => hcnt v)
    rw [hmap, sum_map_add_nat, ih D hnd (fun v hv => hsub v (List.mem_cons_of_mem a hv))]
    have ha : a ∈ D := hsub a (List.mem_cons_self a M)
    rw [sum_map_ite_eq_one (a := a) hnd ha]
    simp [Nat.add_comm]

/-! ## The density-clustering primitive (`sklearn.cluster.DBSCAN`)

`adjacentIdx` is the "within eps" (inclusive, distance ≤ eps) relation between
point indices; `reachFrom` grows the density-reachable set breadth-first, one
layer per unit of fuel; with fuel = number of points it is the connected
component.  A point's cluster label is the least index in its component when
the component reaches `min_samples` members, and `-1` (noise) otherwise —
for `min_samples ≤ 2` (the only values the source uses) this is exactly the
DBSCAN grouping, with labels renamed. -/

def adjacentIdx (eps2 : ℚ) (pts : List (ℚ × ℚ)) (i j : Nat) : Bool :=
  decide (dist2 (pts.getD i (0, 0)) (pts.getD j (0, 0)) ≤ eps2)

def grow (eps2 : ℚ) (pts : List (ℚ × ℚ)) (s : List Nat) : List Nat :=
  (List.range pts.length).filter
    (fun j => decide (j ∈ s) || s.any (fun k => adjacentIdx eps2 pts k j))

def reachFrom (eps2 : ℚ) (pts : List (ℚ × ℚ)) (i : Nat) : Nat → List Nat
  | 0 => [i]
  | fuel + 1 => grow eps2 pts (reachFrom eps2 pts i fuel)

/-- Least element of a list of naturals, with default. -/
def foldrMin (l : List Nat) (d : Nat) : Nat := l.foldr min d

/-- The DBSCAN label of point `i` of `pts`. -/
def dbscanLabel (eps2 : ℚ) (minSamples : Nat) (pts : List (ℚ × ℚ)) (i : Nat) : Int :=
  if minSamples ≤ (reachFrom eps2 pts i pts.length).length then
    ((foldrMin (reachFrom eps2 pts i pts.length) i : Nat) : Int)
  else -1

/-- The label column `DBSCAN(eps, min_samples).fit(coordinates).labels_`
(with `eps2 = eps*eps`). -/
def dbscanLabels (eps2 : ℚ) (minSamples : Nat) (pts : List (ℚ × ℚ)) : List Int :=
  (List.range pts.length).map (dbscanLabel eps2 minSamples pts)

theorem adjacentIdx_comm (eps2 : ℚ) (pts : List (ℚ × ℚ)) (i j : Nat) :
    adjacentIdx eps2 pts i j = adjacentIdx eps2 pts j i := by
  unfold adjacentIdx
  rw [dist2_comm]

theorem adjacentIdx_self (eps2 : ℚ) (pts : List (ℚ × ℚ)) (i : Nat)
    (h : 0 ≤ eps2) : adjacentIdx eps2 pts i i = true := by
  unfold adjacentIdx
  rw [dist2_self]
  exact decide_eq_true h

theorem mem_reachFrom_self (eps2 : ℚ) (pts : List (ℚ × ℚ)) {i : Nat}
    (hi : i < pts.length) : ∀ fuel, i ∈ reachFrom eps2 pts i fuel := by
  intro fuel
  induction fuel with
  | zero => exact List.mem_singleton.mpr rfl
  | succ fuel ih =>
    rw [reachFrom, grow]
    refine List.mem_filter.mpr ⟨List.mem_range.mpr hi, ?_⟩
    rw [decide_eq_true ih, Bool.true_or]

theorem reachFrom_lt_length (eps2 : ℚ) (pts : List (ℚ × ℚ)) {i : Nat}
    (hi : i < pts.length) :
    ∀ fuel, ∀ x ∈ reachFrom eps2 pts i fuel, x < pts.length := by
  intro fuel
  induction fuel with
  | zero =>
    intro x hx
    rw [List.mem_singleton.mp hx]
    exact hi
  | succ fuel ih =>
    intro x hx
    rw [reachFrom, grow] at hx
    exact List.mem_range.mp (List.mem_filter.mp hx).1

/-- `Isolated eps2 pts i`: point `i` has no neighbour within the radius. -/
def Isolated (eps2 : ℚ) (pts : List (ℚ × ℚ)) (i : Nat) : Prop :=
  ∀ j, j < pts.length → j ≠ i → adjacentIdx eps2 pts i j = false

/-- A generic helper: filtering keeps exactly the unique index satisfying the
predicate. -/
theorem filter_eq_singleton_of_unique {α : Type} {p : α → Bool} :
    ∀ (l : List α) (k : Nat) (hk : k < l.length),
      p (l.get ⟨k, hk⟩) = true →
      (∀ j (hj : j < l.length), j ≠ k → p (l.get ⟨j, hj⟩) = false) →
      l.filter p = [l.get ⟨k, hk⟩] := by
  intro l
  induction l with
  | nil => intro k hk; cases hk
  | cons x xs ih =>
    intro k hk hpk hothers
    cases k with
    | zero =>
      have hx : p x = true := hpk
      have hxs : xs.filter p = [] := by
        rw [List.filter_eq_nil_iff]
        intro a ha
        rcases List.mem_iff_get.mp ha with ⟨⟨j, hj⟩, rfl⟩
        have := hothers (j + 1) (Nat.succ_lt_succ hj) (Nat.succ_ne_zero j)
        simpa using this
      simp [List.filter_cons, hx, hxs]
    | succ k =>
      have hx : p x = false := by
        have := hothers 0 (Nat.succ_pos _) (Nat.zero_ne_add_one k).elim
        · simpa using this
      have hk' : k < xs.length := Nat.lt_of_succ_lt_succ hk
      have hrec := ih k hk' (by simpa using hpk)
        (fun j hj hne => by
          have := hothers (j + 1) (Nat.succ_lt_succ hj)
            (fun h => hne (Nat.succ_injective h))
          simpa using this)
      simp [List.filter_cons, hx, hrec]

theorem grow_singleton_isolated (eps2 : ℚ) (pts : List (ℚ × ℚ)) {i : Nat}
    (hi : i < pts.length) (hiso : Isolated eps2 pts i) :
    grow eps2 pts [i] = [i] := by
  have hlen : i < (List.range pts.length).length := by simpa using hi
  have hget : (List.range pts.length).get ⟨i, hlen⟩ = i := by simp
  have h := filter_eq_singleton_of_unique
    (p := fun j => decide (j ∈ [i]) || [i].any (fun k => adjacentIdx eps2 pts k j))
    (List.range pts.length) i hlen
    (by rw [hget]; simp)
    (by
      intro j hj hne
      have hgj : (List.range pts.length).get ⟨j, hj⟩ = j := by simp
      rw [hgj]
      have hadj : adjacentIdx eps2 pts i j = false := hiso j (by simpa using hj) hne
      simp [hne, hadj])
  rw [grow, h, hget]

theorem reachFrom_isolated (eps2 : ℚ) (pts : List (ℚ × ℚ)) {i : Nat}
    (hi : i < pts.length) (hiso : Isolated eps2 pts i) :
    ∀ fuel, reachFrom eps2 pts i fuel = [i] := by
  intro fuel
  induction fuel with
  | zero => rfl
  | succ fuel ih =>
    rw [reachFrom, ih]
    exact grow_singleton_isolated eps2 pts hi hiso

/-- If `i` is isolated, no other point's reachable set ever contains `i`
(adjacency is symmetric). -/
theorem not_mem_reachFrom_isolated (eps2 : ℚ) (pts : List (ℚ × ℚ)) {i : Nat}
    (hiso : Isolated eps2 pts i) :
    ∀ fuel (j : Nat), j < pts.length → i ∈ reachFrom eps2 pts j fuel → j = i := by
  intro fuel
  induction fuel with
  | zero =>
    intro j _ hj
    exact (List.mem_singleton.mp hj).symm
  | succ fuel ih =>
    intro j hjn hj
    rw [reachFrom, grow] at hj
    have hcond := (List.mem_filter.mp hj).2
    rcases (Bool.or_eq_true _ _).mp hcond with h | h
    · exact ih j hjn (of_decide_eq_true h)
    · rcases List.any_eq_true.mp h with ⟨k, hk, hadj⟩
      by_cases hki : k = i
      · subst hki
        exact ih j hjn hk
      · have hkn : k < pts.length := reachFrom_lt_length eps2 pts hjn fuel k hk
        have hfalse : adjacentIdx eps2 pts i k = false := hiso k hkn hki
        rw [adjacentIdx_comm] at hadj
        rw [hadj] at hfalse
        simp at hfalse

theorem foldrMin_eq_or_mem : ∀ (l : List Nat) (d : Nat), l.foldr min d = d ∨ l.foldr min d ∈ l := by
  intro l
  induction l with
  | nil => intro d; exact Or.inl rfl
  | cons a l ih =>
    intro d
    rw [List.foldr_cons]
    rcases min_choice a (l.foldr min d) with hmin | hmin
    · rw [hmin]
      exact Or.inr (List.mem_cons_self a l)
    · rw [hmin]
      rcases ih d with h | h
      · exact Or.inl h
      · exact Or.inr (List.mem_cons_of_mem a h)

theorem length_dbscanLabels (eps2 : ℚ) (m : Nat) (pts : List (ℚ × ℚ)) :
    (dbscanLabels eps2 m pts).length = pts.length := by
  unfold dbscanLabels
  simp

theorem dbscanLabels_get (eps2 : ℚ) (m : Nat) (pts : List (ℚ × ℚ)) (j : Nat)
    (h : j < (dbscanLabels eps2 m pts).length) :
    (dbscanLabels eps2 m pts).get ⟨j, h⟩ = dbscanLabel eps2 m pts j := by
  unfold dbscanLabels at h ⊢
  simp

/-- An isolated point forms its own one-member cluster when `min_samples = 1`
(`group_proximate_rings` case): its label is its own index. -/
theorem dbscanLabel_isolated_min1 (eps2 : ℚ) (pts : List (ℚ × ℚ)) {i : Nat}
    (hi : i < pts.length) (hiso : Isolated eps2 pts i) :
    dbscanLabel eps2 1 pts i = (i : Int) := by
  unfold dbscanLabel
  rw [reachFrom_isolated eps2 pts hi hiso]
  simp [foldrMin]

/-- An isolated point is noise (label `-1`) when `min_samples = 2`
(`group_proximate_racks` case). -/
theorem dbscanLabel_isolated_min2 (eps2 : ℚ) (pts : List (ℚ × ℚ)) {i : Nat}
    (hi : i < pts.length) (hiso : Isolated eps2 pts i) :
    dbscanLabel eps2 2 pts i = -1 := by
  unfold dbscanLabel
  rw [reachFrom_isolated eps2 pts hi hiso]
  simp

/-- No other point receives an isolated point's index as its label
(`min_samples = 1`). -/
theorem dbscanLabel_ne_isolated (eps2 : ℚ) (pts : List (ℚ × ℚ)) {i j : Nat}
    (hj : j < pts.length) (hne : j ≠ i) (hiso : Isolated eps2 pts i) :
    dbscanLabel eps2 1 pts j ≠ (i : Int) := by
  unfold dbscanLabel
  intro hcontra
  have hself : j ∈ reachFrom eps2 pts j pts.length := mem_reachFrom_self eps2 pts hj _
  have hlen : 1 ≤ (reachFrom eps2 pts j pts.length).length :=
    List.length_pos.mpr (List.ne_nil_of_mem hself)
  rw [if_pos hlen] at hcontra
  have hmin : (reachFrom eps2 pts j pts.length).foldr min j = i := by
    have : foldrMin (reachFrom eps2 pts j pts.length) j = i := by exact_mod_cast hcontra
    simpa [foldrMin] using this
  have hmem : i ∈ reachFrom eps2 pts j pts.length := by
    rcases foldrMin_eq_or_mem (reachFrom eps2 pts j pts.length) j with h | h
    · exact absurd (h.symm.trans hmin) hne
    · exact hmin ▸ h
  exact hne (not_mem_reachFrom_isolated eps2 pts hiso _ j hj hmem)

/-! ## Field aggregation reducers (`downstream.py`) -/

/-- `mylist.replace("", "null").fillna("null")` applied to one cell: missing
and empty-string values are coalesced to the literal `"null"`. -/
def coalesce : Option String → String
  | none => "null"
  | some s => if s = "" then "null" else s

/-- One cell of `df.replace("null", np.nan)` (line 72 of `downstream.py`):
a cell exactly equal to `"null"` becomes missing again. -/
def pnString (s : String) : Option String :=
  if s = "null" then none else some s

/-- `df.replace("null", np.nan)` on a possibly-missing cell. -/
def pnOption : Option String → Option String
  | none => none
  | some s => pnString s

/-- `summarize_freq` (lines 40-47 of `downstream.py`): coalesce missing/empty
to `"null"`, tabulate sorted distinct values with their counts (`np.unique`
with `return_counts=True`), and either list them as `value (n=count)` lines or
return the first member when there is a single distinct value.
`np.unique` returns the sorted distinct values with their counts; the zipped
`pairs` list of the source has exactly one entry per distinct value, so
`len(pairs) > 1` is the distinct-value-count test and each joined line is
`value (n=count)`. -/
def summarize_freq (col : List (Option String)) : String :=
  if 1 < (sortedDedup (col.map coalesce)).length then
    String.intercalate "\n"
      ((sortedDedup (col.map coalesce)).map
        (fun v => v ++ " (n=" ++ toString ((col.map coalesce).count v) ++ ")"))
  else
    (col.map coalesce).headD ""

/-- The spec's description of the `frequency_summary` reducer (4.3), amended
only as the code forces: values are coalesced (missing/empty to the `"null"`
bucket) *before* the all-equal test; if all coalesced values are equal the
reducer returns that value, otherwise the newline-joined sorted
`value (n=count)` listing; the output cell is restored to missing when it is
exactly the `"null"` literal. -/
def frequency_summary_spec (col : List (Option String)) : Option String :=
  if ∀ x ∈ col.map coalesce, ∀ y ∈ col.map coalesce, x = y then
    pnString ((col.map coalesce).headD "null")
  else
    pnString (String.intercalate "\n"
      ((sortedDedup (col.map coalesce)).map
        (fun v => v ++ " (n=" ++ toString ((col.map coalesce).count v) ++ ")")))

/-- Centroid of the dissolved (unioned) point geometries: duplicate
coordinates collapse under the union, then the centroid is the coordinate
mean. -/
def centroid (pts : List (ℚ × ℚ)) : ℚ × ℚ :=
  let u := pts.dedup
  ((u.map Prod.fst).sum / (u.length : ℚ), (u.map Prod.snd).sum / (u.length : ℚ))

/-! ## `group_proximate_rings` (fixed fixtures, 4.4) -/

/-- One normalized bollard (ring-and-post) record, the columns consumed by
`group_proximate_rings`.  The id column is always populated for this dataset
(the code joins it with `";".join`, which requires strings). -/
structure RingFeature where
  geometry : ℚ × ℚ
  source : Option String
  amenity : Option String
  bicycle_parking : Option String
  capacity : Option Int
  operator : Option String
  covered : Option String
  access : Option String
  fee : Option String
  ref_street_furniture_id : String
  meta_status : Option String
  meta_business_improvement_area : Option String
  meta_ward_name : Option String
  meta_ward_number : Option String
  meta_source : Option String
  meta_source_last_updated : Option String
deriving DecidableEq, Inhabited

/-- An output record of `group_proximate_rings` (same attributes plus the
synthesized `quantity`; all string cells have passed the global
`replace("null", np.nan)`). -/
structure RingOut where
  geometry : ℚ × ℚ
  source : Option String
  amenity : Option String
  bicycle_parking : Option String
  capacity : Option Int
  operator : Option String
  covered : Option String
  access : Option String
  fee : Option String
  ref_street_furniture_id : Option String
  meta_status : Option String
  meta_business_improvement_area : Option String
  meta_ward_name : Option String
  meta_ward_number : Option String
  meta_source : Option String
  meta_source_last_updated : Option String
  quantity : Option Int
deriving DecidableEq, Inhabited

/-- The `aggregations` table of `group_proximate_rings` (lines 49-66) applied
to one cluster (the rows of one dissolve group, in input order), followed by
the global `replace("null", np.nan)` and the centroid-as-geometry step.
`"first"` takes the first member's value; `capacity`/`quantity` are summed
with pandas `skipna` semantics (missing counts as zero, empty sum is zero);
the id column is `";".join`ed. -/
def aggregateRing (ms : List RingFeature) : RingOut :=
  let h := ms.headD default
  { geometry := centroid (ms.map (fun m => m.geometry))
    source := pnOption h.source
    amenity := pnOption h.amenity
    bicycle_parking := pnOption h.bicycle_parking
    capacity := some ((ms.map (fun m => m.capacity.getD 0)).sum)
    operator := pnOption h.operator
    covered := pnString (summarize_freq (ms.map (fun m => m.covered)))
    access := pnString (summarize_freq (ms.map (fun m => m.access)))
    fee := pnOption h.fee
    ref_street_furniture_id :=
      pnString (String.intercalate ";" (ms.map (fun m => m.ref_street_furniture_id)))
    meta_status := pnOption h.meta_status
    meta_business_improvement_area :=
      pnString (summarize_freq (ms.map (fun m => m.meta_business_improvement_area)))
    meta_ward_name := pnString (summarize_freq (ms.map (fun m => m.meta_ward_name)))
    meta_ward_number := pnString (summarize_freq (ms.map (fun m => m.meta_ward_number)))
    meta_source := pnOption h.meta_source
    meta_source_last_updated := pnOption h.meta_source_last_updated
    quantity := some ((ms.map (fun _ => (1 : Int))).sum) }

/-- `group_proximate_rings(rings, radius)` (lines 7-83 of `downstream.py`):
assign `quantity=1`, reproject to metres (identity here), run
`DBSCAN(eps=radius, min_samples=1)` on the coordinates — which raises on an
empty frame — and dissolve by cluster label (sorted group keys), aggregating
with the table above. -/
def group_proximate_rings (rings : List RingFeature) (radius : ℚ) :
    Except String (List RingOut) :=
  if rings.length = 0 then
    Except.error "Found array with 0 sample(s) while a minimum of 1 is required by DBSCAN"
  else
    let labels := dbscanLabels (radius * radius) 1 (rings.map (fun r => r.geometry))
    let rows := rings.zip labels
    Except.ok ((sortedDedup labels).map
      (fun l => aggregateRing ((rows.filter (fun p => p.2 == l)).map Prod.fst)))

/-- Total output `quantity` (missing counted as zero, as in a pandas sum). -/
def sumQuantities (out : List RingOut) : Int :=
  (out.map (fun o => o.quantity.getD 0)).sum

/-! ## `group_proximate_racks` (cross-source racks, 4.5) -/

/-- One candidate rack record pooled from the city datasets (all columns named
in the `aggregations` table of `group_proximate_racks`, lines 138-162).
`source` is always populated (every dataset stamps its name). -/
structure RackFeature where
  geometry : ℚ × ℚ
  source : String
  amenity : Option String
  bicycle_parking : Option String
  capacity : Option Int
  operator : Option String
  covered : Option String
  access : Option String
  fee : Option String
  start_date : Option String
  lngth : Option String
  description : Option String
  ref_high_capacity_id : Option String
  ref_racks_objectid : Option String
  ref_street_furniture_id : Option String
  meta_borough : Option String
  meta_ward_name : Option String
  meta_ward_number : Option String
  meta_source : Option String
  meta_source_last_updated : Option String
  seasonal : Option String
  meta_status : Option String
  meta_business_improvement_area : Option String
  tmu : Option String
  quantity : Option Int
deriving DecidableEq, Inhabited

/-- `str(x)` on a cell: pandas prints a missing value as `"nan"`. -/
def strOfCell : Option String → String
  | none => "nan"
  | some s => s

/-- The `flist` helper (lines 135-136): drop missing values, join with
`" | "`. -/
def flist (col : List (Option String)) : String :=
  String.intercalate " | " (col.filterMap id)

/-- `combine_descriptions` (lines 129-132): a fixed preamble naming the
number of combined records, then every member value (missing printed as
`"nan"`), `"\n---\n"`-separated. -/
def combine_descriptions (col : List (Option String)) : String :=
  let l := col.map strOfCell
  let blurb := "MULTIPLE RACKS\nThis point is a combination of "
    ++ toString l.length
    ++ " bicycle racks from multiple City of Toronto datasets. In many cases, these may be duplicate entries and there will be fewer than "
    ++ toString l.length ++ " racks present."
  String.intercalate "\n---\n" (blurb :: l)

/-- pandas `min` over a column: least non-missing value, missing if none. -/
def minOpt (col : List (Option Int)) : Option Int :=
  match col.filterMap id with
  | [] => none
  | x :: xs => some (xs.foldr min x)

/-- The cluster labels of the rack pool:
`DBSCAN(eps=30.0, min_samples=2)` — `eps` is hard-coded at line 106, the
`radius` parameter of `group_proximate_racks` is never read. -/
def rackLabels (racks : List RackFeature) : List Int :=
  dbscanLabels (30 * 30) 2 (racks.map (fun r => r.geometry))

/-- Each rack row paired with its cluster label. -/
def rackRows (racks : List RackFeature) : List (RackFeature × Int) :=
  racks.zip (rackLabels racks)

/-- The members of cluster `l`, in input order. -/
def rackClusterMembers (racks : List RackFeature) (l : Int) : List RackFeature :=
  ((rackRows racks).filter (fun p => p.2 == l)).map Prod.fst

/-- `sources_per_cluster` (lines 114-119): the number of distinct `source`
values among the members of cluster `l`.  (The source computes it over the
rows with label ≥ 0; for any fixed label filtering all rows gives the same
members.) -/
def rackClusterSourceCount (racks : List RackFeature) (l : Int) : Nat :=
  ((rackClusterMembers racks l).map (fun m => m.source)).dedup.length

/-- The `aggregations` table of `group_proximate_racks` (lines 138-162)
applied to one surviving cluster, with the dissolve geometry replaced by the
cluster centroid (line 170).  `quantity` is not in the table, so dissolve
drops it and the recombination leaves it missing on aggregated records. -/
def aggregateRack (ms : List RackFeature) : RackFeature :=
  let h := ms.headD default
  { geometry := centroid (ms.map (fun m => m.geometry))
    source := "city-multi"
    amenity := h.amenity
    bicycle_parking := h.bicycle_parking
    capacity := minOpt (ms.map (fun m => m.capacity))
    operator := h.operator
    covered := some (flist (ms.map (fun m => m.covered)))
    access := h.access
    fee := h.fee
    start_date := some (flist (ms.map (fun m => m.start_date)))
    lngth := some (flist (ms.map (fun m => m.lngth)))
    description := some (combine_descriptions (ms.map (fun m => m.description)))
    ref_high_capacity_id := some (flist (ms.map (fun m => m.ref_high_capacity_id)))
    ref_racks_objectid := some (flist (ms.map (fun m => m.ref_racks_objectid)))
    ref_street_furniture_id := some (flist (ms.map (fun m => m.ref_street_furniture_id)))
    meta_borough := h.meta_borough
    meta_ward_name := h.meta_ward_name
    meta_ward_number := h.meta_ward_number
    meta_source := some (flist (ms.map (fun m => m.meta_source)))
    meta_source_last_updated := some (flist (ms.map (fun m => m.meta_source_last_updated)))
    seasonal := some (flist (ms.map (fun m => m.seasonal)))
    meta_status := some (flist (ms.map (fun m => m.meta_status)))
    meta_business_improvement_area :=
      some (flist (ms.map (fun m => m.meta_business_improvement_area)))
    tmu := h.tmu
    quantity := none }

/-- `group_proximate_racks(racks, radius)` (lines 86-180 of `downstream.py`):
reproject, cluster with `DBSCAN(eps=30.0, min_samples=2)` (raising on an empty
frame), split clusters from noise, return single-source clusters to the
singleton pool, dissolve the surviving clusters (sorted group keys) with the
table above, and concatenate aggregated records with the singleton rows. -/
def group_proximate_racks (racks : List RackFeature) (radius : ℚ) :
    Except String (List RackFeature) :=
  if racks.length = 0 then
    Except.error "Found array with 0 sample(s) while a minimum of 1 is required by DBSCAN"
  else
    let rows := rackRows racks
    let clustersRows := rows.filter (fun p => decide (0 ≤ p.2))
    let singles := rows.filter (fun p => decide (p.2 < 0))
    let returnToSingles :=
      clustersRows.filter (fun p => !(decide (1 < rackClusterSourceCount racks p.2)))
    let keptClusters :=
      clustersRows.filter (fun p => decide (1 < rackClusterSourceCount racks p.2))
    let clusterIds := sortedDedup (keptClusters.map (fun p => p.2))
    Except.ok
      ((clusterIds.map
          (fun l => aggregateRack ((keptClusters.filter (fun p => p.2 == l)).map Prod.fst)))
        ++ (singles ++ returnToSingles).map Prod.fst)

/-- A regex-`\s` character (the operators in the data are ASCII). -/
def isSpaceChar (c : Char) : Bool :=
  c = ' ' || c = '\t' || c = '\n' || c = '\r' || c = '\x0b' || c = '\x0c'

/-! ## Cross-reference reconciliation (`data_pipeline.py`, lines 319-357)

An OSM (crowd-sourced) record carries the columns this stage reads: the
free-text `operator`, the `bicycle_parking` subtype, and the family of
`ref:open.toronto.ca...` identifier columns (`refs`, keyed by column name —
`osm_combined.filter(like="ref:open.toronto.ca", axis=1)`). -/
structure OsmRow where
  geometry : ℚ × ℚ
  operator : Option String
  bicycle_parking : Option String
  refs : List (String × Option String)
deriving DecidableEq, Inhabited

/-- Value of ref column `f` on a row (missing when the column is absent). -/
def refVal (r : OsmRow) (f : String) : Option String :=
  match r.refs.lookup f with
  | some v => v
  | none => none

/-- `open_toronto_ca_test` (lines 320-322): the row has a non-missing value in
some `ref:open.toronto.ca` column. -/
def hasRefTag (r : OsmRow) : Bool :=
  r.refs.any (fun p => p.2.isSome)

/-- `city_verified_osm` (line 323). -/
def cityVerified (osm : List OsmRow) : List OsmRow :=
  osm.filter hasRefTag

/-- `str.split(";")` at the character level (`"a;b"` to `["a", "b"]`; an
empty text gives one empty piece, as in Python). -/
def splitSemiChars : List Char → List (List Char)
  | [] => [[]]
  | x :: xs =>
    let r := splitSemiChars xs
    if x = ';' then [] :: r
    else
      match r with
      | [] => [[x]]
      | y :: ys => (x :: y) :: ys

/-- `tag_str.split(";")` on a string. -/
def splitSemi (s : String) : List String :=
  (splitSemiChars s.toList).map List.asString

/-- Python `str.strip()`: remove leading and trailing whitespace. -/
def pyStrip (s : String) : String :=
  (((s.toList.dropWhile isSpaceChar).reverse.dropWhile isSpaceChar).reverse).asString

/-- The per-field id list (lines 326-335): for every city-verified row, take
the ref column's cell as text (`str` prints missing as `"nan"`), split it on
`";"` and strip each piece. -/
def idList (osm : List OsmRow) (f : String) : List String :=
  (cityVerified osm).flatMap
    (fun r => (splitSemi (strOfCell (refVal r f))).map pyStrip)

/-- One civic (open-data) record: its cells, keyed by column name (among them
its `ref:open.toronto.ca...` identifier column). -/
structure CivicRow where
  geometry : ℚ × ℚ
  cells : List (String × Option String)
deriving DecidableEq, Inhabited

/-- `dataset[~dataset.isin(id_lists).any(axis=1)]` (lines 338-339): drop every
civic row with a cell whose column is a ref column and whose value appears in
that column's id list (`isin` never matches a missing cell). -/
def dropClaimedCivic (osm : List OsmRow) (civic : List CivicRow) : List CivicRow :=
  civic.filter (fun r =>
    !(r.cells.any (fun c =>
      match c.2 with
      | some v => (idList osm c.1).contains v
      | none => false)))

/-! The operator-name heuristic (lines 341-357).  The regular expression
`city\s*?of\s*?toronto` with `case=False`: somewhere in the lower-cased text,
`city`, then optional whitespace, `of`, optional whitespace, `toronto`.
(The lazy `\s*?` is equivalent to greedy skipping here because the next
literal starts with a non-space character.) -/


/-- Match a literal character list at the head, returning the rest. -/
def dropLit : List Char → List Char → Option (List Char)
  | [], cs => some cs
  | _ :: _, [] => none
  | p :: ps, c :: cs => if c = p then dropLit ps cs else none

/-- Does `city\s*?of\s*?toronto` match at the head of `cs` (already
lower-cased)? -/
def matchCityAt (cs : List Char) : Bool :=
  match dropLit ("city".toList) cs with
  | none => false
  | some rest1 =>
    match dropLit ("of".toList) (rest1.dropWhile isSpaceChar) with
    | none => false
    | some rest2 =>
      (dropLit ("toronto".toList) (rest2.dropWhile isSpaceChar)).isSome

def containsCityChars : List Char → Bool
  | [] => matchCityAt []
  | c :: cs => matchCityAt (c :: cs) || containsCityChars cs

/-- `Series.str.contains(r"city\s*?of\s*?toronto", case=False, regex=True)`
on one non-missing cell (`case=False` lower-cases before matching). -/
def containsCity (s : String) : Bool :=
  containsCityChars (s.toList.map Char.toLower)

/-- The same test on a possibly-missing operator cell.  (In the expressions
modelled here a missing operator never ends up counted as a match: the
`data_pipeline.py` test `or`s in `isna()`, and `drop_mapped_city_lockers`
selects rows whose non-missing operator matches.) -/
def operatorMatchesCity : Option String → Bool
  | none => false
  | some s => containsCity s

/-- `osm_filtered` (lines 343-354): keep the city-verified rows, and the rows
without ref tags whose operator is missing or does not match the civic
authority's name — unless they are lockers, which are kept regardless. -/
def osmFiltered (osm : List OsmRow) : List OsmRow :=
  cityVerified osm
    ++ osm.filter (fun r =>
        ((!(operatorMatchesCity r.operator) || r.operator.isNone)
          || (r.bicycle_parking == some "lockers"))
        && !(hasRefTag r))

/-! ## `drop_mapped_city_lockers` (lines 183-205) -/

/-- One civic locker record (geometry plus its payload cells). -/
structure LockerRow where
  geometry : ℚ × ℚ
  cells : List (String × Option String)
deriving DecidableEq, Inhabited

/-- `drop_mapped_city_lockers(lockers, osm, radius)`: select the OSM rows
whose operator matches the city regex *and* whose `bicycle_parking` is
`"lockers"`, take their centroids, and keep exactly the locker rows with no
such OSM point within `radius` metres (`sjoin_nearest` with
`max_distance=radius` matches at distance ≤ radius, and the unmatched rows
are the ones with a missing join index). -/
def drop_mapped_city_lockers (lockers : List LockerRow) (osm : List OsmRow)
    (radius : ℚ) : List LockerRow :=
  let osm_city_lockers :=
    (osm.filter (fun r =>
      operatorMatchesCity r.operator && (r.bicycle_parking == some "lockers"))).map
      (fun r => r.geometry)
  lockers.filter (fun l =>
    !(osm_city_lockers.any (fun g => decide (dist2 l.geometry g ≤ radius * radius))))

/-! ## Claim theorems -/

/-- Membership in the output of `drop_mapped_city_lockers`: a civic locker
row survives iff no city-operated OSM locker lies within the radius
(inclusive). -/
theorem mem_drop_mapped_iff (lockers : List LockerRow) (osm : List OsmRow)
    (radius : ℚ) (l : LockerRow) :
    l ∈ drop_mapped_city_lockers lockers osm radius ↔
      l ∈ lockers ∧ ∀ o ∈ osm, operatorMatchesCity o.operator = true →
        o.bicycle_parking = some "lockers" →
        ¬(dist2 l.geometry o.geometry ≤ radius * radius) := by
  simp only [drop_mapped_city_lockers, List.mem_filter, Bool.not_eq_true',
    List.any_eq_false, List.mem_map, List.mem_filter, Bool.and_eq_true,
    beq_iff_eq, decide_eq_true_eq, decide_eq_false_iff_not]
  constructor
  · rintro ⟨hl, hall⟩
    refine ⟨hl, ?_⟩
    intro o ho hop hbp
    exact hall _ ⟨o, ⟨ho, hop, hbp⟩, rfl⟩
  · rintro ⟨hl, hall⟩
    refine ⟨hl, ?_⟩
    rintro g ⟨o, ⟨ho, hop, hbp⟩, rfl⟩
    exact hall o ho hop hbp

/-- C7: on an empty input Dataset the clustering components *do* raise:
`DBSCAN.fit` rejects an empty coordinate array (`ValueError`, "Found array
with 0 sample(s)"), so empty input does not yield empty output — the claim
describes the spec's intent, the code errors. -/
theorem c7_empty_input_raises :
    group_proximate_rings [] 5
        = Except.error "Found array with 0 sample(s) while a minimum of 1 is required by DBSCAN"
      ∧ group_proximate_racks [] 30
        = Except.error "Found array with 0 sample(s) while a minimum of 1 is required by DBSCAN" :=
  ⟨rfl, rfl⟩

/-- C9: the output of `group_proximate_racks` is independent of its `radius`
parameter — the `DBSCAN` call hard-codes `eps=30.0` (line 106) and `radius`
is never read, so any two radii give equal outputs. -/
theorem c9_radius_parameter_unused (racks : List RackFeature) (r1 r2 : ℚ) :
    group_proximate_racks racks r1 = group_proximate_racks racks r2 := rfl

/-- C8: with the default 200 m radius, a civic locker exactly at the
suppression boundary from a matching crowd-sourced record is suppressed
(inclusive boundary), and a civic locker with no matching crowd-sourced
record within the radius (in particular one metre beyond it) passes through
as the unchanged row. -/
theorem c8_suppression_radius_boundary (lockers : List LockerRow)
    (osm : List OsmRow) (l : LockerRow) (hl : l ∈ lockers) :
    ((∃ o ∈ osm, operatorMatchesCity o.operator = true ∧
        o.bicycle_parking = some "lockers" ∧
        dist2 l.geometry o.geometry = 200 * 200) →
      l ∉ drop_mapped_city_lockers lockers osm 200)
    ∧ ((∀ o ∈ osm, operatorMatchesCity o.operator = true →
        o.bicycle_parking = some "lockers" →
        (200 : ℚ) * 200 < dist2 l.geometry o.geometry) →
      l ∈ drop_mapped_city_lockers lockers osm 200) := by
  constructor
  · rintro ⟨o, ho, hop, hbp, hdist⟩ hmem
    have h := ((mem_drop_mapped_iff lockers osm 200 l).mp hmem).2 o ho hop hbp
    exact h (le_of_eq hdist)
  · intro hfar
    refine (mem_drop_mapped_iff lockers osm 200 l).mpr ⟨hl, ?_⟩
    intro o ho hop hbp
    exact not_le.mpr (hfar o ho hop hbp)

/-- Concrete instantiation of `c8_suppression_radius_boundary`: a locker at
the origin is suppressed by a matching OSM locker exactly 200 m away, and
retained when the only matching OSM locker is 201 m away. -/
theorem c8_suppression_radius_boundary_witness :
    ({ geometry := (0, 0), cells := [] } : LockerRow)
        ∉ drop_mapped_city_lockers [{ geometry := (0, 0), cells := [] }]
          [{ geometry := (200, 0), operator := some "City of Toronto",
             bicycle_parking := some "lockers", refs := [] }] 200
    ∧ ({ geometry := (0, 0), cells := [] } : LockerRow)
        ∈ drop_mapped_city_lockers [{ geometry := (0, 0), cells := [] }]
          [{ geometry := (201, 0), operator := some "City of Toronto",
             bicycle_parking := some "lockers", refs := [] }] 200 :=
  ⟨(c8_suppression_radius_boundary _ _ _ (by decide)).1
      ⟨_, List.mem_singleton.mpr rfl, by decide, rfl, by decide⟩,
    (c8_suppression_radius_boundary _ _ _ (by decide)).2 (by decide)⟩

/-- C10: `drop_mapped_city_lockers` suppresses a civic locker only when some
crowd-sourced record *both* matches the city-operator regex *and* has
`bicycle_parking = "lockers"` within the radius: if every crowd-sourced
record fails one of the three conditions, the locker row is retained; and the
output is a sublist of the civic input (the crowd-sourced frame is only
read). -/
theorem c10_suppression_needs_operator_and_subtype (lockers : List LockerRow)
    (osm : List OsmRow) (radius : ℚ) :
    (∀ l ∈ lockers,
      (∀ o ∈ osm, operatorMatchesCity o.operator = true →
        o.bicycle_parking = some "lockers" →
        ¬(dist2 l.geometry o.geometry ≤ radius * radius)) →
      l ∈ drop_mapped_city_lockers lockers osm radius)
    ∧ (drop_mapped_city_lockers lockers osm radius).Sublist lockers := by
  constructor
  · intro l hl hnone
    exact (mem_drop_mapped_iff lockers osm radius l).mpr ⟨hl, hnone⟩
  · simp only [drop_mapped_city_lockers]
    exact List.filter_sublist _

/-- Concrete instantiation of `c10_suppression_needs_operator_and_subtype`:
a crowd-sourced record of another subtype (`"stands"`), at distance zero and
with a matching operator, does not suppress the civic locker. -/
theorem c10_suppression_needs_operator_and_subtype_witness :
    ({ geometry := (0, 0), cells := [] } : LockerRow)
      ∈ drop_mapped_city_lockers [{ geometry := (0, 0), cells := [] }]
        [{ geometry := (0, 0), operator := some "City of Toronto",
           bicycle_parking := some "stands", refs := [] }] 200 :=
  (c10_suppression_needs_operator_and_subtype _ _ 200).1 _ (by decide) (by decide)

/-- A looked-up ref cell is one of the row's ref columns. -/
theorem mem_refs_of_refVal {r : OsmRow} {f : String} {v : String}
    (h : refVal r f = some v) : (f, some v) ∈ r.refs := by
  unfold refVal at h
  cases hl : r.refs.lookup f with
  | none => rw [hl] at h; cases h
  | some w =>
    rw [hl] at h
    subst h
    rcases List.lookup_eq_some_iff.mp hl with ⟨l1, l2, heq, _⟩
    rw [heq]
    exact List.mem_append_right _ (List.mem_cons_self _ _)

/-- C3: every identifier found in a crowd-sourced record's
`ref:open.toronto.ca` attributes is split on semicolons into individual ids,
and every civic record carrying one of those ids in the same ref field is
dropped from the civic-only output. -/
theorem c3_reference_exclusion (osm : List OsmRow) (civic : List CivicRow)
    (rOsm : OsmRow) (f v tid : String) (rCiv : CivicRow)
    (hosm : rOsm ∈ osm) (hval : refVal rOsm f = some v)
    (hid : tid ∈ (splitSemi v).map pyStrip)
    (hciv : rCiv ∈ civic) (hcell : (f, some tid) ∈ rCiv.cells) :
    rCiv ∉ dropClaimedCivic osm civic := by
  intro hmem
  have hverified : rOsm ∈ cityVerified osm := by
    refine List.mem_filter.mpr ⟨hosm, ?_⟩
    exact List.any_eq_true.mpr ⟨(f, some v), mem_refs_of_refVal hval, rfl⟩
  have hinlist : tid ∈ idList osm f := by
    unfold idList
    refine List.mem_flatMap.mpr ⟨rOsm, hverified, ?_⟩
    rw [hval]
    exact hid
  have hpred := (List.mem_filter.mp hmem).2
  rw [Bool.not_eq_true'] at hpred
  have hany : rCiv.cells.any (fun c =>
      match c.2 with
      | some w => (idList osm c.1).contains w
      | none => false) = true := by
    refine List.any_eq_true.mpr ⟨(f, some tid), hcell, ?_⟩
    simpa using List.elem_eq_true_of_mem hinlist
  rw [hany] at hpred
  cases hpred

/-- Witness data for the reference-exclusion claim: one crowd-sourced record
carrying `"123;456"` in `ref:city:id`, and two civic records with ids
`"123"` and `"456"` on the same field. -/
def osmRefRow : OsmRow :=
  { geometry := (0, 0), operator := none, bicycle_parking := none,
    refs := [("ref:city:id", some "123;456")] }

def civicRow123 : CivicRow :=
  { geometry := (0, 0), cells := [("ref:city:id", some "123")] }

def civicRow456 : CivicRow :=
  { geometry := (1, 1), cells := [("ref:city:id", some "456")] }

/-- Concrete instantiation of `c3_reference_exclusion`: with a crowd-sourced
record carrying `"123;456"` in `ref:city:id`, both the civic record with id
`"123"` and the one with id `"456"` are excluded. -/
theorem c3_reference_exclusion_witness :
    civicRow123 ∉ dropClaimedCivic [osmRefRow] [civicRow123, civicRow456]
    ∧ civicRow456 ∉ dropClaimedCivic [osmRefRow] [civicRow123, civicRow456] :=
  ⟨c3_reference_exclusion [osmRefRow] [civicRow123, civicRow456] osmRefRow
      "ref:city:id" "123;456" "123" civicRow123
      (by decide) rfl (by decide) (by decide) (by decide),
    c3_reference_exclusion [osmRefRow] [civicRow123, civicRow456] osmRefRow
      "ref:city:id" "123;456" "456" civicRow456
      (by decide) rfl (by decide) (by decide) (by decide)⟩

/-- A matching operator is in particular present. -/
theorem operatorMatchesCity_not_none {op : Option String}
    (h : operatorMatchesCity op = true) : op.isNone = false := by
  cases op with
  | none => exact absurd h (by simp [operatorMatchesCity])
  | some s => rfl

/-- C4: a crowd-sourced record is excluded from the retained set exactly when
its operator text matches the civic authority's name, it carries no
`ref:open.toronto.ca` tag, and it is not of the `lockers` subtype; records
with a missing or non-matching operator, a ref tag, or subtype `lockers` are
retained. -/
theorem c4_operator_name_heuristic (osm : List OsmRow) (r : OsmRow)
    (hr : r ∈ osm) :
    r ∉ osmFiltered osm ↔
      (hasRefTag r = false ∧ operatorMatchesCity r.operator = true ∧
        r.bicycle_parking ≠ some "lockers") := by
  have hmem : r ∈ osmFiltered osm ↔
      hasRefTag r = true ∨
        (((!(operatorMatchesCity r.operator) || r.operator.isNone)
          || (r.bicycle_parking == some "lockers"))
          && !(hasRefTag r)) = true := by
    simp only [osmFiltered, cityVerified, List.mem_append, List.mem_filter]
    constructor
    · rintro (⟨_, h⟩ | ⟨_, h⟩)
      · exact Or.inl h
      · exact Or.inr h
    · rintro (h | h)
      · exact Or.inl ⟨hr, h⟩
      · exact Or.inr ⟨hr, h⟩
  rw [hmem]
  constructor
  · intro hnot
    have href : hasRefTag r = false := by
      cases h : hasRefTag r
      · rfl
      · exact absurd (Or.inl h) hnot
    have hB : (((!(operatorMatchesCity r.operator) || r.operator.isNone)
        || (r.bicycle_parking == some "lockers")) && !(hasRefTag r)) = false := by
      cases h : (((!(operatorMatchesCity r.operator) || r.operator.isNone)
          || (r.bicycle_parking == some "lockers")) && !(hasRefTag r))
      · rfl
      · exact absurd (Or.inr h) hnot
    rw [href] at hB
    simp only [Bool.not_false, Bool.and_true, Bool.or_eq_false_iff,
      Bool.not_eq_false'] at hB
    obtain ⟨⟨hmat, _⟩, hbp⟩ := hB
    refine ⟨href, hmat, ?_⟩
    intro hbpeq
    rw [hbpeq] at hbp
    simp at hbp
  · rintro ⟨href, hmat, hbp⟩ hor
    rcases hor with h | h
    · rw [href] at h; cases h
    · rw [href, hmat, operatorMatchesCity_not_none hmat] at h
      simp only [Bool.not_true, Bool.false_or, Bool.not_false, Bool.and_true] at h
      exact hbp (by simpa using h)

/-- Concrete instantiation of `c4_operator_name_heuristic`: a record operated
by `"City  of Toronto"` (double space) with no ref tag and subtype
`"stands"` is excluded; the same record with a missing operator is
retained. -/
theorem c4_operator_name_heuristic_witness :
    ({ geometry := (0, 0), operator := some "City  of Toronto",
       bicycle_parking := some "stands",
       refs := [("ref:open.toronto.ca:street-furniture-bicycle-parking:id", none)] } : OsmRow)
        ∉ osmFiltered
          [{ geometry := (0, 0), operator := some "City  of Toronto",
             bicycle_parking := some "stands",
             refs := [("ref:open.toronto.ca:street-furniture-bicycle-parking:id", none)] }]
    ∧ ({ geometry := (0, 0), operator := none,
         bicycle_parking := some "stands",
         refs := [("ref:open.toronto.ca:street-furniture-bicycle-parking:id", none)] } : OsmRow)
        ∈ osmFiltered
          [{ geometry := (0, 0), operator := none,
             bicycle_parking := some "stands",
             refs := [("ref:open.toronto.ca:street-furniture-bicycle-parking:id", none)] }] :=
  ⟨(c4_operator_name_heuristic _ _ (by decide)).mpr (by decide),
    Decidable.by_contra (fun h =>
      absurd ((c4_operator_name_heuristic _ _ (by decide)).mp h).2.1 (by decide))⟩

theorem sum_map_one_int (ms : List α) :
    (ms.map (fun _ => (1 : Int))).sum = (ms.length : Int) := by
  induction ms with
  | nil => rfl
  | cons a l ih =>
    simp only [List.map_cons, List.sum_cons, ih, List.length_cons]
    push_cast
    ring

/-- Each aggregated ring record's quantity is the member count of its
cluster. -/
theorem aggregateRing_quantity (ms : List RingFeature) :
    ((aggregateRing ms).quantity).getD 0 = (ms.length : Int) := by
  simp [aggregateRing, sum_map_one_int]

/-- C2: for every input accepted by `group_proximate_rings`, the output
quantities sum to the number of input Features — every point belongs to
exactly one cluster under `min_samples=1`, each contributes quantity 1, and
the per-cluster quantities are summed, so no fixture is silently dropped. -/
theorem c2_quantity_conservation (rings : List RingFeature) (radius : ℚ)
    (out : List RingOut)
    (h : group_proximate_rings rings radius = Except.ok out) :
    sumQuantities out = (rings.length : Int) := by
  unfold group_proximate_rings at h
  split at h
  · cases h
  · injection h with h
    subst h
    set L := dbscanLabels (radius * radius) 1 (rings.map (fun r => r.geometry)) with hL
    have hLlen : L.length = rings.length := by
      rw [hL, length_dbscanLabels, List.length_map]
    set rows := rings.zip L with hrows
    unfold sumQuantities
    rw [List.map_map]
    have hmapeq : ((sortedDedup L).map
        ((fun o => o.quantity.getD 0)
          ∘ (fun l => aggregateRing ((rows.filter (fun p => p.2 == l)).map Prod.fst))))
        = (sortedDedup L).map (fun l => ((L.count l : Nat) : Int)) := by
      refine List.map_congr_left ?_
      intro l _
      simp only [Function.comp_apply, aggregateRing_quantity, List.length_map]
      congr 1
      rw [← List.countP_eq_length_filter]
      have hsnd : rows.map Prod.snd = L := by
        rw [hrows]
        exact List.map_snd_zip rings L (le_of_eq hLlen)
      calc rows.countP (fun p => p.2 == l)
          = (rows.map Prod.snd).countP (fun x => x == l) := by
            rw [List.countP_map]; rfl
        _ = L.countP (fun x => x == l) := by rw [hsnd]
        _ = L.count l := rfl
    rw [hmapeq]
    have hsplit : (sortedDedup L).map (fun l => ((L.count l : Nat) : Int))
        = ((sortedDedup L).map (fun l => L.count l)).map (fun n : Nat => (n : Int)) := by
      rw [List.map_map]
      rfl
    rw [hsplit, ← Nat.cast_list_sum,
      sum_counts_eq_length L (sortedDedup L) (nodup_sortedDedup L)
        (fun v hv => mem_sortedDedup.mpr hv), hLlen]

theorem one_lt_length_of_mem_ne {l : List α} {x y : α}
    (hx : x ∈ l) (hy : y ∈ l) (h : x ≠ y) : 1 < l.length := by
  match l with
  | [] => cases hx
  | [a] =>
    rw [List.mem_singleton.mp hx, List.mem_singleton.mp hy] at h
    exact absurd rfl h
  | a :: b :: t =>
    simp only [List.length_cons]
    omega

/-- C5 (amended): the `frequency_summary` reducer coalesces missing and
empty values into the `"null"` bucket *before* the all-equal test; on a
nonempty member list it returns the single coalesced value when all
coalesced values agree (restored to missing when that value is `"null"`),
and otherwise the newline-joined, value-sorted `value (n=count)` listing
over the coalesced values. -/
theorem c5_frequency_summary_amended (col : List (Option String))
    (hne : col ≠ []) :
    pnString (summarize_freq col) = frequency_summary_spec col := by
  have hcne : col.map coalesce ≠ [] := by
    intro hmap
    exact hne (List.map_eq_nil_iff.mp hmap)
  by_cases hall : ∀ x ∈ col.map coalesce, ∀ y ∈ col.map coalesce, x = y
  · obtain ⟨a, rest, hcons⟩ := List.exists_cons_of_ne_nil hcne
    have hsd : sortedDedup (col.map coalesce) = [a] := by
      refine sortedDedup_all_eq hcne ?_
      intro x hx
      exact hall x hx a (hcons ▸ List.mem_cons_self a rest)
    rw [summarize_freq, frequency_summary_spec, if_pos hall, hsd, hcons]
    norm_num
  · rw [summarize_freq, frequency_summary_spec, if_neg hall]
    push_neg at hall
    obtain ⟨x, hx, y, hy, hxy⟩ := hall
    have hlen : 1 < (sortedDedup (col.map coalesce)).length :=
      one_lt_length_of_mem_ne (mem_sortedDedup.mpr hx) (mem_sortedDedup.mpr hy) hxy
    rw [if_pos hlen]

/-- Concrete instantiation of `c5_frequency_summary_amended` at a one-member
column. -/
theorem c5_frequency_summary_amended_witness :
    ([some "a"] : List (Option String)) ≠ []
    ∧ pnString (summarize_freq [some "a"]) = frequency_summary_spec [some "a"] :=
  ⟨by decide, c5_frequency_summary_amended [some "a"] (by decide)⟩

/-- C5 counterexample: on members `[missing, "yes", "yes"]` every non-missing
value equals `"yes"`, yet `summarize_freq` does not return `"yes"` — the
missing value was coalesced into a `"null"` bucket before the distinct-count
test, so the reducer returns the two-line frequency listing instead. -/
theorem c5_frequency_summary_counterexample :
    summarize_freq [none, some "yes", some "yes"] = "null (n=1)\nyes (n=2)"
    ∧ (([none, some "yes", some "yes"] : List (Option String)).filterMap id).all
        (fun v => v == "yes") = true
    ∧ summarize_freq [none, some "yes", some "yes"] ≠ "yes" := by
  have h2 : ("null" : String) < "yes" := String.lt_iff_toList_lt.mpr (by decide)
  have hsd : sortedDedup (([none, some "yes", some "yes"] :
      List (Option String)).map coalesce) = ["null", "yes"] := by
    show insortU "null" (insortU "yes" (insortU "yes" [])) = ["null", "yes"]
    rw [show insortU "yes" ([] : List String) = ["yes"] from rfl]
    rw [insortU, if_neg (lt_irrefl _), if_pos rfl]
    rw [insortU, if_pos h2]
  have hmain : summarize_freq [none, some "yes", some "yes"]
      = "null (n=1)\nyes (n=2)" := by
    rw [summarize_freq, hsd, if_pos (by norm_num : 1 < (["null", "yes"] : List String).length)]
    rfl
  exact ⟨hmain, by decide, by rw [hmain]; decide⟩

/-- The rows of `rackRows` are (input rack, label) pairs, so their first
components are input racks. -/
theorem rackRows_fst_mem {racks : List RackFeature} {p : RackFeature × Int}
    (hp : p ∈ rackRows racks) : p.1 ∈ racks := by
  rcases p with ⟨a, b⟩
  exact (List.of_mem_zip hp).1

/-- C1 (multi-source gate): whenever `group_proximate_racks` succeeds, every
output record that is not an input row passed through verbatim is the
aggregate of a cluster drawn from at least two distinct `source` datasets;
and every row whose cluster has at most one distinct source (noise rows
included) appears individually in the output. -/
theorem c1_multi_source_gate (racks : List RackFeature) (radius : ℚ)
    (out : List RackFeature)
    (h : group_proximate_racks racks radius = Except.ok out) :
    (∀ rec ∈ out, rec ∉ racks →
      ∃ l : Int, 0 ≤ l ∧ 1 < rackClusterSourceCount racks l ∧
        rec = aggregateRack (rackClusterMembers racks l))
    ∧ (∀ p ∈ rackRows racks,
        (0 ≤ p.2 → rackClusterSourceCount racks p.2 ≤ 1) → p.1 ∈ out) := by
  unfold group_proximate_racks at h
  split at h
  · cases h
  · injection h with h
    subst h
    constructor
    · intro rec hrec hnotin
      rcases List.mem_append.mp hrec with hA | hB
      · rcases List.mem_map.mp hA with ⟨l, hlid, rfl⟩
        have hlmem : l ∈ (((rackRows racks).filter (fun p => decide (0 ≤ p.2))).filter
            (fun p => decide (1 < rackClusterSourceCount racks p.2))).map
              (fun p => p.2) := mem_sortedDedup.mp hlid
        rcases List.mem_map.mp hlmem with ⟨q, hq, rfl⟩
        have hq2 := List.mem_filter.mp hq
        have hq1 := List.mem_filter.mp hq2.1
        have h0 : (0 : Int) ≤ q.2 := of_decide_eq_true hq1.2
        have hcnt : 1 < rackClusterSourceCount racks q.2 := of_decide_eq_true hq2.2
        refine ⟨q.2, h0, hcnt, ?_⟩
        congr 1
        unfold rackClusterMembers
        congr 1
        rw [List.filter_filter, List.filter_filter]
        refine List.filter_congr ?_
        intro a _
        cases heq : a.2 == q.2 with
        | true =>
          have ha2 : a.2 = q.2 := beq_iff_eq.mp heq
          rw [ha2]
          simp [h0, hcnt]
        | false => simp
      · rcases List.mem_map.mp hB with ⟨p, hp, rfl⟩
        rcases List.mem_append.mp hp with hp1 | hp1
        · exact absurd (rackRows_fst_mem (List.mem_filter.mp hp1).1) hnotin
        · exact absurd
            (rackRows_fst_mem (List.mem_filter.mp (List.mem_filter.mp hp1).1).1) hnotin
    · intro p hp hcond
      refine List.mem_append_right _ ?_
      by_cases h0 : (0 : Int) ≤ p.2
      · have hcnt : rackClusterSourceCount racks p.2 ≤ 1 := hcond h0
        have hmem1 : p ∈ (rackRows racks).filter (fun p => decide (0 ≤ p.2)) :=
          List.mem_filter.mpr ⟨hp, decide_eq_true h0⟩
        have hmem2 : p ∈ ((rackRows racks).filter (fun p => decide (0 ≤ p.2))).filter
            (fun p => !(decide (1 < rackClusterSourceCount racks p.2))) := by
          refine List.mem_filter.mpr ⟨hmem1, ?_⟩
          rw [decide_eq_false (not_lt.mpr hcnt)]
          rfl
        exact List.mem_map_of_mem _ (List.mem_append_right _ hmem2)
      · have hlt : p.2 < 0 := lt_of_not_ge h0
        have hmem1 : p ∈ (rackRows racks).filter (fun p => decide (p.2 < 0)) :=
          List.mem_filter.mpr ⟨hp, decide_eq_true hlt⟩
        exact List.mem_map_of_mem _ (List.mem_append_left _ hmem1)

/-- `mkRack g src`: a rack record with representative attribute values, used
to instantiate the rack claims. -/
def mkRack (g : ℚ × ℚ) (src : String) : RackFeature :=
  { geometry := g, source := src, amenity := some "bicycle_parking",
    bicycle_parking := some "rack", capacity := some 8,
    operator := some "City of Toronto", covered := none, access := some "yes",
    fee := some "no", start_date := none, lngth := none,
    description := some "Rack", ref_high_capacity_id := none,
    ref_racks_objectid := some "1", ref_street_furniture_id := none,
    meta_borough := some "Toronto", meta_ward_name := some "Spadina",
    meta_ward_number := some "10", meta_source := some "bicycle-parking-racks",
    meta_source_last_updated := some "2024-01-01", seasonal := none,
    meta_status := none, meta_business_improvement_area := none, tmu := none,
    quantity := some 1 }

/-- Three rack records, all from source `"city-a"`, within 30 m of each
other. -/
def racksSameSource : List RackFeature :=
  [mkRack (0, 0) "city-a", mkRack (10, 0) "city-a", mkRack (20, 0) "city-a"]

/-- Concrete instantiation of `c1_multi_source_gate`: three racks from one
source within the radius come out as the three original records — never one
merged record — and in particular the first of them appears in the output. -/
theorem c1_multi_source_gate_witness :
    group_proximate_racks racksSameSource 30 = Except.ok racksSameSource
    ∧ mkRack (0, 0) "city-a" ∈ racksSameSource :=
  ⟨rfl,
    (c1_multi_source_gate racksSameSource 30 racksSameSource rfl).2
      (mkRack (0, 0) "city-a", 0) (by decide) (fun _ => by decide)⟩

/-! ## C6: singleton pass-through -/

/-- The cleanliness conditions under which the fixed-fixture aggregation is
the identity on a one-member cluster: no string cell is the literal `"null"`
(the global `replace("null", np.nan)` would blank it) and no
frequency-summarized cell is the empty string (the reducer coalesces it). -/
def ringClean (r : RingFeature) : Prop :=
  r.source ≠ some "null" ∧ r.amenity ≠ some "null" ∧
  r.bicycle_parking ≠ some "null" ∧ r.operator ≠ some "null" ∧
  r.fee ≠ some "null" ∧ r.meta_status ≠ some "null" ∧
  r.meta_source ≠ some "null" ∧ r.meta_source_last_updated ≠ some "null" ∧
  (r.covered ≠ some "" ∧ r.covered ≠ some "null") ∧
  (r.access ≠ some "" ∧ r.access ≠ some "null") ∧
  (r.meta_business_improvement_area ≠ some "" ∧
    r.meta_business_improvement_area ≠ some "null") ∧
  (r.meta_ward_name ≠ some "" ∧ r.meta_ward_name ≠ some "null") ∧
  (r.meta_ward_number ≠ some "" ∧ r.meta_ward_number ≠ some "null") ∧
  r.ref_street_furniture_id ≠ "null"

/-- The output record keeps the input Feature's geometry and attribute
values (the id column stays its own value, and `quantity` is the synthesized
1). -/
def preservesRing (r : RingFeature) (o : RingOut) : Prop :=
  o.geometry = r.geometry ∧ o.source = r.source ∧ o.amenity = r.amenity ∧
  o.bicycle_parking = r.bicycle_parking ∧ o.capacity = r.capacity ∧
  o.operator = r.operator ∧ o.covered = r.covered ∧ o.access = r.access ∧
  o.fee = r.fee ∧ o.ref_street_furniture_id = some r.ref_street_furniture_id ∧
  o.meta_status = r.meta_status ∧
  o.meta_business_improvement_area = r.meta_business_improvement_area ∧
  o.meta_ward_name = r.meta_ward_name ∧
  o.meta_ward_number = r.meta_ward_number ∧ o.meta_source = r.meta_source ∧
  o.meta_source_last_updated = r.meta_source_last_updated ∧
  o.quantity = some 1

theorem centroid_singleton (g : ℚ × ℚ) : centroid [g] = g := by
  simp [centroid]

theorem pnOption_eq_self {v : Option String} (h : v ≠ some "null") :
    pnOption v = v := by
  cases v with
  | none => rfl
  | some s =>
    have hs : s ≠ "null" := fun hc => h (by rw [hc])
    simp [pnOption, pnString, hs]

theorem summarize_freq_singleton (v : Option String) :
    summarize_freq [v] = coalesce v := by
  rw [summarize_freq]
  rw [if_neg (by
    rw [show (sortedDedup (([v] : List (Option String)).map coalesce)).length = 1 from rfl]
    exact lt_irrefl 1)]
  rfl

theorem pnString_summarize_singleton {v : Option String}
    (h1 : v ≠ some "") (h2 : v ≠ some "null") :
    pnString (summarize_freq [v]) = v := by
  rw [summarize_freq_singleton]
  cases v with
  | none => rfl
  | some s =>
    have hs1 : s ≠ "" := fun hc => h1 (by rw [hc])
    have hs2 : s ≠ "null" := fun hc => h2 (by rw [hc])
    simp [coalesce, pnString, hs1, hs2]

/-- Aggregating a one-member cluster is the identity on the record (up to
the synthesized `quantity` and missing-capacity-to-zero), provided the
cleanliness conditions hold and the capacity is present. -/
theorem aggregateRing_singleton (r : RingFeature)
    (hcap : r.capacity.isSome = true) (hclean : ringClean r) :
    preservesRing r (aggregateRing [r]) := by
  obtain ⟨c, hc⟩ := Option.isSome_iff_exists.mp hcap
  obtain ⟨h1, h2, h3, h4, h5, h6, h7, h8, h9, h10, h11, h12, h13, h14⟩ := hclean
  refine ⟨?_, ?_, ?_, ?_, ?_, ?_, ?_, ?_, ?_, ?_, ?_, ?_, ?_, ?_, ?_, ?_, ?_⟩
  · show centroid [r.geometry] = r.geometry
    exact centroid_singleton r.geometry
  · exact pnOption_eq_self h1
  · exact pnOption_eq_self h2
  · exact pnOption_eq_self h3
  · show some (r.capacity.getD 0 + 0) = r.capacity
    rw [hc]
    simp
  · exact pnOption_eq_self h4
  · exact pnString_summarize_singleton h9.1 h9.2
  · exact pnString_summarize_singleton h10.1 h10.2
  · exact pnOption_eq_self h5
  · show pnString (String.intercalate ";" [r.ref_street_furniture_id])
        = some r.ref_street_furniture_id
    rw [show String.intercalate ";" [r.ref_street_furniture_id]
        = r.ref_street_furniture_id from rfl]
    simp [pnString, h14]
  · exact pnOption_eq_self h6
  · exact pnString_summarize_singleton h11.1 h11.2
  · exact pnString_summarize_singleton h12.1 h12.2
  · exact pnString_summarize_singleton h13.1 h13.2
  · exact pnOption_eq_self h7
  · exact pnOption_eq_self h8
  · rfl

theorem getD_map_geom {α : Type} (f : α → ℚ × ℚ) (l : List α) (i : Nat)
    (hi : i < l.length) : (l.map f).getD i (0, 0) = f (l.get ⟨i, hi⟩) := by
  have hlen : i < (l.map f).length := by simpa using hi
  simp [List.getD_eq_getElem?_getD, List.getElem?_eq_getElem hlen]

/-- A Feature with no neighbour within the radius is isolated in the
coordinate list. -/
theorem isolated_of_no_neighbor {α : Type} (f : α → ℚ × ℚ) (l : List α)
    (eps2 : ℚ) (i : Nat) (hi : i < l.length)
    (h : ∀ j (hj : j < l.length), j ≠ i →
      ¬(dist2 (f (l.get ⟨i, hi⟩)) (f (l.get ⟨j, hj⟩)) ≤ eps2)) :
    Isolated eps2 (l.map f) i := by
  intro j hj hne
  rw [List.length_map] at hj
  unfold adjacentIdx
  rw [getD_map_geom f l i hi, getD_map_geom f l j hj]
  exact decide_eq_false (h j hj hne)

theorem zip_label_filter_singleton {α : Type} [DecidableEq α]
    (xs : List α) (L : List Int) (i : Nat) (hi : i < xs.length)
    (hlen : L.length = xs.length)
    (hlabi : L.get ⟨i, by rw [hlen]; exact hi⟩ = (i : Int))
    (hlabne : ∀ j (hj : j < xs.length), j ≠ i →
      L.get ⟨j, by rw [hlen]; exact hj⟩ ≠ (i : Int)) :
    (xs.zip L).filter (fun p => p.2 == (i : Int))
      = [(xs.get ⟨i, hi⟩, (i : Int))] := by
  have hzlen : (xs.zip L).length = xs.length := by
    rw [List.length_zip, hlen, Nat.min_self]
  have hget : ∀ j (hj : j < xs.length),
      (xs.zip L).get ⟨j, by rw [hzlen]; exact hj⟩
        = (xs.get ⟨j, hj⟩, L.get ⟨j, by rw [hlen]; exact hj⟩) := by
    intro j hj
    simp [List.getElem_zip]
  have h1 := filter_eq_singleton_of_unique (p := fun p => p.2 == (i : Int))
    (xs.zip L) i (by rw [hzlen]; exact hi)
    (by
      rw [hget i hi]
      show (L.get ⟨i, by rw [hlen]; exact hi⟩ == (i : Int)) = true
      rw [hlabi]
      exact beq_self_eq_true _)
    (by
      intro j hj hne
      have hj2 : j < xs.length := by rw [hzlen] at hj; exact hj
      rw [hget j hj2]
      show (L.get ⟨j, by rw [hlen]; exact hj2⟩ == (i : Int)) = false
      exact beq_eq_false_iff_ne.mpr (hlabne j hj2 hne))
  rw [h1, hget i hi, hlabi]

/-- C6 (amended): a Feature with no neighbour within the configured radius
appears in the output of both grouping passes.  For cross-source racks it is
the input row itself, unchanged.  For fixed fixtures it appears as the
one-member aggregate, which keeps the geometry and every attribute and adds
`quantity = 1` — provided its capacity is present (the `sum` reducer turns a
missing capacity into 0) and no string cell is empty or the literal `"null"`
(the coalescing and the global `replace("null", np.nan)` would rewrite
those). -/
theorem c6_singleton_pass_through_amended :
    (∀ (rings : List RingFeature) (radius : ℚ) (out : List RingOut) (i : Nat)
        (hi : i < rings.length),
      group_proximate_rings rings radius = Except.ok out →
      (∀ j (hj : j < rings.length), j ≠ i →
        ¬(dist2 ((rings.get ⟨i, hi⟩).geometry) ((rings.get ⟨j, hj⟩).geometry)
            ≤ radius * radius)) →
      (rings.get ⟨i, hi⟩).capacity.isSome = true →
      ringClean (rings.get ⟨i, hi⟩) →
      aggregateRing [rings.get ⟨i, hi⟩] ∈ out
        ∧ preservesRing (rings.get ⟨i, hi⟩) (aggregateRing [rings.get ⟨i, hi⟩]))
    ∧ (∀ (racks : List RackFeature) (radius : ℚ) (out : List RackFeature) (i : Nat)
        (hi : i < racks.length),
      group_proximate_racks racks radius = Except.ok out →
      (∀ j (hj : j < racks.length), j ≠ i →
        ¬(dist2 ((racks.get ⟨i, hi⟩).geometry) ((racks.get ⟨j, hj⟩).geometry)
            ≤ 30 * 30)) →
      racks.get ⟨i, hi⟩ ∈ out) := by
  constructor
  · intro rings radius out i hi h hiso hcap hclean
    unfold group_proximate_rings at h
    split at h
    · cases h
    · injection h with h
      subst h
      have hptslen : (rings.map (fun r => r.geometry)).length = rings.length := by
        simp
      have hibound : i < (rings.map (fun r => r.geometry)).length := by
        rw [hptslen]; exact hi
      have hiso2 : Isolated (radius * radius) (rings.map (fun r => r.geometry)) i :=
        isolated_of_no_neighbor _ _ _ i hi hiso
      have hLlen : (dbscanLabels (radius * radius) 1
          (rings.map (fun r => r.geometry))).length = rings.length := by
        rw [length_dbscanLabels, hptslen]
      have hlabi : (dbscanLabels (radius * radius) 1
            (rings.map (fun r => r.geometry))).get ⟨i, by rw [hLlen]; exact hi⟩
          = (i : Int) := by
        rw [dbscanLabels_get]
        exact dbscanLabel_isolated_min1 _ _ hibound hiso2
      have hlabne : ∀ j (hj : j < rings.length), j ≠ i →
          (dbscanLabels (radius * radius) 1
            (rings.map (fun r => r.geometry))).get ⟨j, by rw [hLlen]; exact hj⟩
            ≠ (i : Int) := by
        intro j hj hne
        rw [dbscanLabels_get]
        exact dbscanLabel_ne_isolated _ _ (by rw [hptslen]; exact hj) hne hiso2
      have hfilter := zip_label_filter_singleton rings
        (dbscanLabels (radius * radius) 1 (rings.map (fun r => r.geometry)))
        i hi hLlen hlabi hlabne
      have himem : (i : Int) ∈ sortedDedup (dbscanLabels (radius * radius) 1
          (rings.map (fun r => r.geometry))) := by
        rw [mem_sortedDedup, ← hlabi]
        exact List.get_mem _ _ _
      constructor
      · have hm := List.mem_map_of_mem
          (fun l => aggregateRing
            (((rings.zip (dbscanLabels (radius * radius) 1
              (rings.map (fun r => r.geometry)))).filter
                (fun p => p.2 == l)).map Prod.fst)) himem
        simp only [] at hm
        rw [hfilter] at hm
        exact hm
      · exact aggregateRing_singleton _ hcap hclean
  · intro racks radius out i hi h hiso
    unfold group_proximate_racks at h
    split at h
    · cases h
    · injection h with h
      subst h
      have hptslen : (racks.map (fun r => r.geometry)).length = racks.length := by
        simp
      have hibound : i < (racks.map (fun r => r.geometry)).length := by
        rw [hptslen]; exact hi
      have hiso2 : Isolated (30 * 30) (racks.map (fun r => r.geometry)) i :=
        isolated_of_no_neighbor _ _ _ i hi hiso
      have hlab : dbscanLabel (30 * 30) 2 (racks.map (fun r => r.geometry)) i = -1 :=
        dbscanLabel_isolated_min2 _ _ hibound hiso2
      have hLlen : (rackLabels racks).length = racks.length := by
        rw [rackLabels, length_dbscanLabels, hptslen]
      have hzlen : (racks.zip (rackLabels racks)).length = racks.length := by
        rw [List.length_zip, hLlen, Nat.min_self]
      have hgetrow : (racks.zip (rackLabels racks)).get ⟨i, by rw [hzlen]; exact hi⟩
          = (racks.get ⟨i, hi⟩, (-1 : Int)) := by
        have h1 : (racks.zip (rackLabels racks)).get ⟨i, by rw [hzlen]; exact hi⟩
            = (racks.get ⟨i, hi⟩,
                (rackLabels racks).get ⟨i, by rw [hLlen]; exact hi⟩) := by
          simp [List.getElem_zip]
        rw [h1]
        have hli : (rackLabels racks).get ⟨i, by rw [hLlen]; exact hi⟩ = -1 := by
          show (dbscanLabels (30 * 30) 2 (racks.map (fun r => r.geometry))).get
            ⟨i, by rw [← rackLabels, hLlen]; exact hi⟩ = -1
          rw [dbscanLabels_get]
          exact hlab
        rw [hli]
      have hmemrow : (racks.get ⟨i, hi⟩, (-1 : Int)) ∈ rackRows racks := by
        have hm : (racks.zip (rackLabels racks)).get ⟨i, by rw [hzlen]; exact hi⟩
            ∈ racks.zip (rackLabels racks) := List.get_mem _ _ _
        rw [hgetrow] at hm
        exact hm
      have hmemsingles : (racks.get ⟨i, hi⟩, (-1 : Int))
          ∈ (rackRows racks).filter (fun p => decide (p.2 < 0)) :=
        List.mem_filter.mpr ⟨hmemrow, rfl⟩
      refine List.mem_append_right _ ?_
      exact List.mem_map_of_mem _ (List.mem_append_left _ hmemsingles)

/-- A bollard record with representative, clean attribute values. -/
def cleanRing : RingFeature :=
  { geometry := (0, 0), source := some "street-furniture-bicycle-parking",
    amenity := some "bicycle_parking", bicycle_parking := some "bollard",
    capacity := some 2, operator := some "City of Toronto",
    covered := some "no", access := some "yes", fee := some "no",
    ref_street_furniture_id := "101", meta_status := some "Existing",
    meta_business_improvement_area := none, meta_ward_name := some "Spadina",
    meta_ward_number := some "10", meta_source := some "street-furniture",
    meta_source_last_updated := some "2024-01-01" }

def ringsSingle : List RingFeature := [cleanRing]

def outRingsSingle : List RingOut :=
  (group_proximate_rings ringsSingle 5).toOption.getD []

def racksPairFar : List RackFeature :=
  [mkRack (0, 0) "city-a", mkRack (100, 0) "city-b"]

def outRacksPairFar : List RackFeature :=
  (group_proximate_racks racksPairFar 30).toOption.getD []

/-- Concrete instantiation of `c6_singleton_pass_through_amended`: a lone
clean bollard comes out as its one-member aggregate with geometry and
attributes preserved, and a rack with no neighbour within 30 m comes out as
the unchanged input row. -/
theorem c6_singleton_pass_through_amended_witness :
    (aggregateRing [cleanRing] ∈ outRingsSingle
      ∧ preservesRing cleanRing (aggregateRing [cleanRing]))
    ∧ mkRack (0, 0) "city-a" ∈ outRacksPairFar :=
  ⟨c6_singleton_pass_through_amended.1 ringsSingle 5 outRingsSingle 0
      (by decide) rfl
      (by
        intro j hj hne
        have hlen : ringsSingle.length = 1 := rfl
        rw [hlen] at hj
        omega)
      rfl (by unfold ringClean; decide),
    c6_singleton_pass_through_amended.2 racksPairFar 30 outRacksPairFar 0
      (by decide) rfl
      (by
        intro j hj hne
        have hlen : racksPairFar.length = 2 := rfl
        rw [hlen] at hj
        have hj1 : j = 1 := by omega
        subst hj1
        exact (by decide :
          ¬dist2 ((racksPairFar.get ⟨0, by decide⟩).geometry)
            ((racksPairFar.get ⟨1, by decide⟩).geometry) ≤ 30 * 30))⟩

/-- The same bollard with its capacity missing. -/
def ringNoCapacity : RingFeature := { cleanRing with capacity := none }

/-- The capacity column of a `group_proximate_rings` run. -/
def ringCapacityColumn (rings : List RingFeature) (radius : ℚ) :
    Option (List (Option Int)) :=
  (group_proximate_rings rings radius).toOption.map
    (fun out => out.map (fun o => o.capacity))

/-- C6 counterexample: a lone bollard (trivially with no neighbour within
5 m) whose capacity is missing does *not* appear unchanged in the output of
`group_proximate_rings` — the `sum` reducer turns the missing capacity into
0, so an attribute value changed. -/
theorem c6_singleton_pass_through_counterexample :
    ringNoCapacity.capacity = none
    ∧ ringCapacityColumn [ringNoCapacity] 5 = some [some 0] :=
  ⟨rfl, rfl⟩

def ringsThreeFar : List RingFeature :=
  [cleanRing, { cleanRing with geometry := (100, 0) },
    { cleanRing with geometry := (200, 0) }]

/-- Concrete instantiation of `c2_quantity_conservation`: three bollards far
apart, total output quantity equals the input count. -/
theorem c2_quantity_conservation_witness :
    sumQuantities ((group_proximate_rings ringsThreeFar 5).toOption.getD [])
      = ((ringsThreeFar.length : Nat) : Int) :=
  c2_quantity_conservation ringsThreeFar 5 _ rfl
